import Mathlib

/-!
The song library: verse codec, filter predicate, queries and mutations.

A shallow embedding of the Go service `Fyefhqdishka/song-library`
(`controllers/song_controller.go`, `repositories/song_repository.go`,
`models/song.go`) together with the library and SQL semantics its statements
rely on.

Conventions of the embedding

* A Go `string` is a list of Unicode scalar values (`Str`).  Every string that
  reaches the code arrives through `encoding/json` or a URL query, and the
  JSON decoder coerces its input to well-formed UTF-8, so nothing is lost; the
  delimiter `"\n\n"` is ASCII, so cutting at characters and cutting at bytes
  agree.
* A Go `[]string` is `Option (List Str)`: `none` is the `nil` slice.
* `time.Time` is an integer count of days from the zero time (year 1,
  January 1), which is the resolution `time.Parse("2006-01-02", _)` produces.
* The table `songs` is the list of its rows in scan order.  The schema lives in
  a migration that is not part of the sources; the columns are the seven the
  statements name, in the order `GetSong` scans them, with the text columns
  `NOT NULL` and `verses` a nullable text column that stores what it is given.
* Case folding used by `ILIKE` depends on the database locale, so it is a
  parameter `fold : Char → Char` of everything that matches patterns.
* The connection to the database never fails: an `Err` is an error the
  statement or the decoding itself raises.
-/

abbrev Str := List Char

/-- Errors a repository call can return. -/
inductive Err where
  | query
  | scan
  | decode
  deriving DecidableEq, Repr

deriving instance DecidableEq for Except

namespace time

/-- Days since the zero `time.Time`. -/
abbrev Time := Int

/-- The zero value of `time.Time`. -/
def zero : Time := 0

end time

/-! ## `strings.Split` -/

namespace strings

/-- Position of the first occurrence of `sep` in `s` (`strings.Index`); `none` is `-1`. -/
def Index (s sep : Str) : Option Nat :=
  match s with
  | [] => if sep = [] then some 0 else none
  | c :: rest =>
    if sep.isPrefixOf (c :: rest) then some 0
    else (Index rest sep).map (· + 1)

/-- The loop of `strings.Count` for a separator of two or more bytes: find, count, skip. -/
def countLoop : Nat → Str → Str → Nat
  | 0, _, _ => 0
  | fuel + 1, s, substr =>
    match Index s substr with
    | none => 0
    | some i => countLoop fuel (s.drop (i + substr.length)) substr + 1

/-- Number of non-overlapping occurrences of `substr` in `s` (`strings.Count`). -/
def Count (s substr : Str) : Nat := countLoop (s.length + 1) s substr

/-- The loop `for i < n` of `genSplit`; the first argument is `n - 1`. -/
def genSplitLoop : Nat → Str → Str → List Str
  | 0, s, _ => [s]
  | k + 1, s, sep =>
    match Index s sep with
    | none => [s]
    | some m => s.take m :: genSplitLoop k (s.drop (m + sep.length)) sep

/-- Go `strings.Split(s, sep)` for a non-empty `sep`, that is `genSplit(s, sep, 0, -1)`:
`n = Count(s, sep) + 1`, clamped to `len(s) + 1`. -/
def Split (s sep : Str) : List Str :=
  genSplitLoop (min (Count s sep + 1) (s.length + 1) - 1) s sep

/-- Go `strings.Join`. -/
def Join : List Str → Str → Str
  | [], _ => []
  | [a], _ => a
  | a :: b :: rest, sep => a ++ sep ++ Join (b :: rest) sep

end strings

/-! ## `strconv.Atoi` -/

namespace strconv

/-- Go `strconv.Atoi` on a 64-bit platform: an optional sign and one or more decimal
digits; `none` stands for a syntax or range error. -/
def Atoi (s : Str) : Option Int :=
  let digits : Str :=
    match s with
    | '-' :: r => r
    | '+' :: r => r
    | _ => s
  let neg : Bool :=
    match s with
    | '-' :: _ => true
    | _ => false
  if digits = [] ∨ digits.any (fun c => !c.isDigit) then none
  else
    let n : Nat := digits.foldl (fun a c => a * 10 + (c.toNat - 48)) 0
    let v : Int := if neg then -(n : Int) else (n : Int)
    if v < -(2 : Int) ^ 63 ∨ (2 : Int) ^ 63 ≤ v then none else some v

end strconv

/-! ## `encoding/json` for a `[]string` -/

namespace json

def hexDigit (n : Nat) : Char :=
  if n < 10 then Char.ofNat (48 + n) else Char.ofNat (87 + n)

def hexVal (c : Char) : Option Nat :=
  let n := c.toNat
  if 48 ≤ n ∧ n ≤ 57 then some (n - 48)
  else if 97 ≤ n ∧ n ≤ 102 then some (n - 87)
  else if 65 ≤ n ∧ n ≤ 70 then some (n - 55)
  else none

def htmlSafeSet (b : Nat) : Bool :=
  0x20 ≤ b && b != 0x22 && b != 0x26 && b != 0x3c && b != 0x3e && b != 0x5c

/-- The escape `appendString` writes for one character, with `escapeHTML` on as in
`json.Marshal`: quote, backslash and the control characters with a short form get it
(`\b` and `\f` since Go 1.22, `\u0008` and `\u000c` before; the decoder reads both),
other control characters and `<`, `>`, `&` become `\u00XX`, U+2028 and U+2029 become
`\u2028` and `\u2029`, everything else is copied. -/
def encodeRune (c : Char) : Str :=
  let b := c.toNat
  if b < 0x80 then
    if htmlSafeSet b then [c]
    else if c = '\\' ∨ c = '"' then ['\\', c]
    else if c = '\x08' then ['\\', 'b']
    else if c = '\x0c' then ['\\', 'f']
    else if c = '\n' then ['\\', 'n']
    else if c = '\r' then ['\\', 'r']
    else if c = '\t' then ['\\', 't']
    else ['\\', 'u', '0', '0', hexDigit (b / 16), hexDigit (b % 16)]
  else if b = 0x2028 ∨ b = 0x2029 then ['\\', 'u', '2', '0', '2', hexDigit (b % 16)]
  else [c]

def encodeBody : Str → Str
  | [] => []
  | c :: s => encodeRune c ++ encodeBody s

def appendString (src : Str) : Str := '"' :: (encodeBody src ++ ['"'])

def encodeElems : List Str → Str
  | [] => []
  | [s] => appendString s
  | s :: t :: rest => appendString s ++ ',' :: encodeElems (t :: rest)

def Marshal (v : Option (List Str)) : Str :=
  match v with
  | none => ['n', 'u', 'l', 'l']
  | some l => '[' :: (encodeElems l ++ [']'])

def isSpace (c : Char) : Bool := c = ' ' || c = '\t' || c = '\r' || c = '\n'

def skipSpace : Str → Str
  | [] => []
  | c :: s => if isSpace c then skipSpace s else c :: s

def getu4 (s : Str) : Option Nat :=
  match s with
  | '\\' :: 'u' :: a :: b :: c :: d :: _ =>
    match hexVal a, hexVal b, hexVal c, hexVal d with
    | some x, some y, some z, some w => some (((x * 16 + y) * 16 + z) * 16 + w)
    | _, _, _, _ => none
  | _ => none

def escapeLit (e : Char) : Option Char :=
  if e = '"' ∨ e = '\\' ∨ e = '/' then some e
  else if e = 'b' then some '\x08'
  else if e = 'f' then some '\x0c'
  else if e = 'n' then some '\n'
  else if e = 'r' then some '\r'
  else if e = 't' then some '\t'
  else none

def decodeRune (r1 : Nat) (r2 : Option Nat) : Option Char :=
  match r2 with
  | some lo =>
    if 0xd800 ≤ r1 ∧ r1 < 0xdc00 ∧ 0xdc00 ≤ lo ∧ lo < 0xe000 then
      some (Char.ofNat ((r1 - 0xd800) * 1024 + (lo - 0xdc00) + 0x10000))
    else none
  | none => none

def consRune (c : Char) (r : Option (Str × Str)) : Option (Str × Str) :=
  r.map (fun p => (c :: p.1, p.2))

def unquoteFuel : Nat → Str → Option (Str × Str)
  | 0, _ => none
  | fuel + 1, s =>
    match s with
    | [] => none
    | c :: cs =>
      if c = '"' then some ([], cs)
      else if c = '\\' then
        match cs with
        | [] => none
        | e :: cs1 =>
          if e = 'u' then
            match getu4 s with
            | none => none
            | some rr =>
              if 0xd800 ≤ rr ∧ rr < 0xe000 then
                match decodeRune rr (getu4 (s.drop 6)) with
                | some dec => consRune dec (unquoteFuel fuel (s.drop 12))
                | none => consRune (Char.ofNat 0xfffd) (unquoteFuel fuel (s.drop 6))
              else consRune (Char.ofNat rr) (unquoteFuel fuel (s.drop 6))
          else
            match escapeLit e with
            | none => none
            | some ch => consRune ch (unquoteFuel fuel cs1)
      else if c.toNat < 0x20 then none
      else consRune c (unquoteFuel fuel cs)

def unquote (s : Str) : Option (Str × Str) := unquoteFuel (s.length + 1) s

def arrayElems : Nat → Str → Option (List Str × Str)
  | 0, _ => none
  | fuel + 1, s =>
    let elem : Option (Str × Str) :=
      match skipSpace s with
      | '"' :: cs => unquote cs
      | 'n' :: 'u' :: 'l' :: 'l' :: cs => some ([], cs)
      | _ => none
    match elem with
    | none => none
    | some (v, rest) =>
      match skipSpace rest with
      | ',' :: rest1 => (arrayElems fuel rest1).map (fun p => (v :: p.1, p.2))
      | ']' :: rest1 => some ([v], rest1)
      | _ => none

def Unmarshal (data : Str) (v : Option (List Str)) : Except Err (Option (List Str)) :=
  match skipSpace data with
  | 'n' :: 'u' :: 'l' :: 'l' :: rest =>
    if skipSpace rest = [] then .ok v else .error .decode
  | '[' :: rest =>
    match skipSpace rest with
    | ']' :: rest1 => if skipSpace rest1 = [] then .ok (some []) else .error .decode
    | _ =>
      match arrayElems rest.length rest with
      | some (l, rest1) => if skipSpace rest1 = [] then .ok (some l) else .error .decode
      | none => .error .decode
  | _ => .error .decode

end json


/-! ## The data model (`models/song.go`) and the table `songs` -/

namespace models

/-- Go `models.Song`. -/
structure Song where
  ID : Str
  GroupName : Str
  SongTitle : Str
  ReleaseDate : time.Time
  Text : Str
  Link : Str
  Verses : Option (List Str)
  deriving DecidableEq

/-- Go `models.GetSong`, the search filter. -/
structure GetSong where
  GroupName : Str
  SongTitle : Str
  ReleaseDate : time.Time
  Text : Str
  Link : Str
  deriving DecidableEq

end models

namespace sql

/-- One row of the table `songs`. -/
structure Row where
  id : Nat
  group_name : Str
  song_title : Str
  release_date : time.Time
  text : Str
  link : Str
  verses : Option Str
  deriving DecidableEq

/-- The table `songs`, in scan order. -/
abbrev Table := List Row

/-- Elements of a `LIKE` pattern. -/
inductive LikeTok where
  | anySeq
  | anyOne
  | lit (c : Char)
  deriving DecidableEq

/-- Reads a `LIKE` pattern: `%` is any sequence, `_` any one character, a backslash makes
the next character literal.  A pattern that ends in a lone backslash is not a pattern
(`none`): SQL makes it an error, which PostgreSQL raises at the point where matching
reaches that backslash.  The statements proved below are about well-formed patterns. -/
def likeTokens : Str → Option (List LikeTok)
  | [] => some []
  | c :: p =>
    if c = '\\' then
      match p with
      | [] => none
      | d :: q => (likeTokens q).map (fun ts => LikeTok.lit d :: ts)
    else if c = '%' then (likeTokens p).map (fun ts => LikeTok.anySeq :: ts)
    else if c = '_' then (likeTokens p).map (fun ts => LikeTok.anyOne :: ts)
    else (likeTokens p).map (fun ts => LikeTok.lit c :: ts)

/-- Whether the whole of `s` matches the pattern, comparing literals up to `fold`. -/
def likeMatch (fold : Char → Char) : List LikeTok → Str → Bool
  | [], s => s.isEmpty
  | LikeTok.anySeq :: ts, s => s.tails.any (fun t => likeMatch fold ts t)
  | LikeTok.anyOne :: ts, s =>
    match s with
    | [] => false
    | _ :: t => likeMatch fold ts t
  | LikeTok.lit c :: ts, s =>
    match s with
    | [] => false
    | d :: t => fold c == fold d && likeMatch fold ts t

/-- SQL `s ILIKE pattern` (default escape character). -/
def ILIKE (fold : Char → Char) (s pattern : Str) : Except Err Bool :=
  match likeTokens pattern with
  | none => .error .query
  | some ts => .ok (likeMatch fold ts s)

/-- Rows of `rows` kept by a `WHERE` condition, in scan order; the statement fails when the
condition fails on a row. -/
def selectWhere (cond : Row → Except Err Bool) : List Row → Except Err (List Row)
  | [] => .ok []
  | r :: rest =>
    match cond r with
    | .error e => .error e
    | .ok b =>
      match selectWhere cond rest with
      | .error e => .error e
      | .ok sel => .ok (if b then r :: sel else sel)

/-- Inserts a row into a list ordered by `release_date` descending, before the rows of the
same date. -/
def insertByDateDesc (r : Row) : List Row → List Row
  | [] => [r]
  | x :: xs =>
    if r.release_date < x.release_date then x :: insertByDateDesc r xs else r :: x :: xs

/-- `ORDER BY release_date DESC`; rows of equal date keep their scan order. -/
def orderByReleaseDateDesc : List Row → List Row
  | [] => []
  | r :: rest => insertByDateDesc r (orderByReleaseDateDesc rest)

/-- `LIMIT limit OFFSET offset`; a negative bound is an error of the statement. -/
def limitOffset {α : Type} (rows : List α) (limit offset : Int) : Except Err (List α) :=
  if limit < 0 ∨ offset < 0 then .error .query
  else .ok ((rows.drop offset.toNat).take limit.toNat)

/-- Destination `*string` of `rows.Scan` for the integer column `id`. -/
def scanId (src : Nat) : Except Err Str := .ok (Nat.toDigits 10 src)

/-- Destination `*[]string` of `rows.Scan`.  `database/sql` converts a column value
(`[]byte`, `string` or `nil`) only into the destination kinds it lists (strings, byte
slices, numbers, booleans, `time.Time`, pointers to those, or a `sql.Scanner`); a
`*[]string` is none of them, and `Scan` reports
`unsupported Scan, storing driver.Value type ... into type *[]string` whatever the
value is. -/
def scanStringSlice (_src : Option Str) : Except Err (Option (List Str)) := .error .scan

/-- A scanned `sql.NullString`: `none` is `Valid == false`. -/
def scanNullString (src : Option Str) : Except Err (Option Str) := .ok src

end sql

/-! ## `repositories/song_repository.go` -/

namespace repositories

open sql

/-- Identifier the database assigns to an inserted row. -/
def nextId (db : Table) : Nat := (db.map (fun r => r.id)).foldr max 0 + 1

/-- `SongRepository.AddSong`: marshals the verses and inserts one row. -/
def AddSong (db : Table) (song : models.Song) : Except Err Table :=
  let versesJSON := json.Marshal song.Verses
  .ok (db ++ [{ id := nextId db, group_name := song.GroupName, song_title := song.SongTitle,
                release_date := song.ReleaseDate, text := song.Text, link := song.Link,
                verses := some versesJSON }])

/-- `SongRepository.DeleteSong`:
`DELETE FROM songs WHERE group_name=$1 AND song_title=$2`. -/
def DeleteSong (db : Table) (groupName songTitle : Str) : Except Err Table :=
  .ok (db.filter (fun r => !(decide (r.group_name = groupName) && decide (r.song_title = songTitle))))

/-- One conjunct `(COALESCE($n, '') = '' OR column ILIKE '%' || $n || '%')`. -/
def fieldCond (fold : Char → Char) (arg column : Str) : Except Err Bool :=
  if arg = [] then .ok true else ILIKE fold column ('%' :: (arg ++ ['%']))

/-- The `WHERE` clause of `GetSong` on one row. -/
def whereGetSong (fold : Char → Char) (song : models.GetSong) (r : Row) : Except Err Bool :=
  match fieldCond fold song.GroupName r.group_name,
        fieldCond fold song.SongTitle r.song_title,
        fieldCond fold song.Text r.text,
        fieldCond fold song.Link r.link with
  | .ok g, .ok t, .ok x, .ok l => .ok (g && t && decide (r.release_date = song.ReleaseDate) && x && l)
  | _, _, _, _ => .error .query

/-- The rows the statement of `GetSong` returns, before they are scanned. -/
def getSongRows (fold : Char → Char) (db : Table) (song : models.GetSong) (limit offset : Int) :
    Except Err (List Row) :=
  match selectWhere (whereGetSong fold song) db with
  | .error e => .error e
  | .ok sel => limitOffset (orderByReleaseDateDesc sel) limit offset

/-- The `rows.Scan` call of `GetSong` on one row. -/
def scanSong (r : Row) : Except Err models.Song :=
  match scanId r.id, scanStringSlice r.verses with
  | .ok id, .ok verses =>
    .ok { ID := id, GroupName := r.group_name, SongTitle := r.song_title,
          ReleaseDate := r.release_date, Text := r.text, Link := r.link, Verses := verses }
  | .error e, _ => .error e
  | _, .error e => .error e

/-- The loop `for rows.Next()` of `GetSong`. -/
def scanSongs : List Row → Except Err (List models.Song)
  | [] => .ok []
  | r :: rest =>
    match scanSong r with
    | .error e => .error e
    | .ok s =>
      match scanSongs rest with
      | .error e => .error e
      | .ok songs => .ok (s :: songs)

/-- `SongRepository.GetSong(song, limit, offset)`. -/
def GetSong (fold : Char → Char) (db : Table) (song : models.GetSong) (limit offset : Int) :
    Except Err (List models.Song) :=
  match getSongRows fold db song limit offset with
  | .error e => .error e
  | .ok rows => scanSongs rows

/-- The loop `for rows.Next()` of `GetSongVerses`: a non-NULL `verses` value is
unmarshalled and appended. -/
def collectVerses : List Row → Except Err (List Str)
  | [] => .ok []
  | r :: rest =>
    match scanNullString r.verses with
    | .error e => .error e
    | .ok none => collectVerses rest
    | .ok (some versesJson) =>
      match json.Unmarshal versesJson none with
      | .error e => .error e
      | .ok tempVerses =>
        match collectVerses rest with
        | .error e => .error e
        | .ok verses => .ok (tempVerses.getD [] ++ verses)

/-- `SongRepository.GetSongVerses(songTitle, offset, limit)`:
`SELECT verses FROM songs WHERE song_title ILIKE $1 LIMIT $2 OFFSET $3` with the arguments
`songTitle, limit, offset`. -/
def GetSongVerses (fold : Char → Char) (db : Table) (songTitle : Str) (offset : Int)
    (limit : Int) : Except Err (List Str) :=
  match selectWhere (fun r => ILIKE fold r.song_title songTitle) db with
  | .error e => .error e
  | .ok sel =>
    match limitOffset sel limit offset with
    | .error e => .error e
    | .ok rows => collectVerses rows

/-- The effect of `UPDATE songs SET text = $1 WHERE song_title ILIKE $2` on the table. -/
def updateRows (fold : Char → Char) (newText songTitle : Str) : List Row → Except Err (List Row)
  | [] => .ok []
  | r :: rest =>
    match ILIKE fold r.song_title songTitle with
    | .error e => .error e
    | .ok b =>
      match updateRows fold newText songTitle rest with
      | .error e => .error e
      | .ok rest1 => .ok ((if b then { r with text := newText } else r) :: rest1)

/-- `SongRepository.UpdateSongText(songTitle, newText)`. -/
def UpdateSongText (fold : Char → Char) (db : Table) (songTitle newText : Str) :
    Except Err Table :=
  updateRows fold newText songTitle db

end repositories

/-! ## `controllers/song_controller.go` -/

namespace url

/-- The query string of a request, as key/value pairs. -/
abbrev Values := List (Str × Str)

/-- Go `url.Values.Get`: the first value of the key, or `""`. -/
def Values.Get (q : Values) (key : Str) : Str :=
  match q.find? (fun p => p.1 = key) with
  | some p => p.2
  | none => []

end url

namespace controllers

open sql

/-- What a handler did: the status code it wrote, the table afterwards, and the value it
encoded into the response, if any. -/
structure Result (α : Type) where
  status : Nat
  db : Table
  value : Option α

/-- The JSON object of an add request: the keys of `models.Song` that are present. -/
structure SongBody where
  id : Option Str
  group_name : Option Str
  song_title : Option Str
  release_date : Option time.Time
  text : Option Str
  link : Option Str
  verses : Option (List Str)
  deriving DecidableEq

/-- The zero value of `models.Song` (`var song models.Song`). -/
def zeroSong : models.Song :=
  { ID := [], GroupName := [], SongTitle := [], ReleaseDate := time.zero, Text := [],
    Link := [], Verses := none }

/-- Effect of `json.NewDecoder(r.Body).Decode(&song)`: a key that is present overwrites the
field, an absent one leaves it. -/
def decodeInto (song : models.Song) (b : SongBody) : models.Song :=
  { ID := b.id.getD song.ID,
    GroupName := b.group_name.getD song.GroupName,
    SongTitle := b.song_title.getD song.SongTitle,
    ReleaseDate := b.release_date.getD song.ReleaseDate,
    Text := b.text.getD song.Text,
    Link := b.link.getD song.Link,
    Verses := match b.verses with
      | some v => some v
      | none => song.Verses }

/-- The delimiter of verses, two line breaks. -/
def verseSep : Str := ['\n', '\n']

/-- Lines 47 to 49 of `AddSongs`:
`if song.Text != "" { song.Verses = strings.Split(song.Text, "\n\n") }`. -/
def splitVerses (song : models.Song) : models.Song :=
  if song.Text ≠ [] then { song with Verses := some (strings.Split song.Text verseSep) }
  else song

/-- The verses `AddSongs` derives from a text alone, for a song that carries no verses of
its own. -/
def Split (text : Str) : List Str :=
  ((splitVerses { zeroSong with Text := text }).Verses).getD []

/-- `SongController.AddSongs`.  `timeParse` is `time.Parse("2006-01-02", _)`; `body` is the
decoded JSON object, `none` when the body does not decode. -/
def AddSongs (timeParse : Str → Option time.Time) (db : Table) (query : url.Values)
    (body : Option SongBody) : Result models.Song :=
  let releaseDateStr := query.Get "release_date".toList
  let dated : Option models.Song :=
    if releaseDateStr ≠ [] then
      match timeParse releaseDateStr with
      | none => none
      | some parsedDate => some { zeroSong with ReleaseDate := parsedDate }
    else some zeroSong
  match dated with
  | none => { status := 400, db := db, value := none }
  | some song0 =>
    match body with
    | none => { status := 400, db := db, value := none }
    | some b =>
      let song := splitVerses (decodeInto song0 b)
      match repositories.AddSong db song with
      | .error _ => { status := 500, db := db, value := none }
      | .ok db1 => { status := 201, db := db1, value := some song }

/-- The arguments with which `GetSongs` calls the repository, or the status it answers
before calling it. -/
def getSongsArgs (timeParse : Str → Option time.Time) (query : url.Values) :
    Except Nat (models.GetSong × Int × Int) :=
  let groupName := query.Get "group_name".toList
  let songTitle := query.Get "song_title".toList
  let releaseDateStr := query.Get "release_date".toList
  let text := query.Get "text".toList
  let link := query.Get "link".toList
  let releaseDate : Option time.Time :=
    if releaseDateStr ≠ [] then timeParse releaseDateStr else some time.zero
  match releaseDate with
  | none => .error 400
  | some date =>
    let limit : Int := 10
    let offset : Int := 0
    .ok ({ GroupName := groupName, SongTitle := songTitle, ReleaseDate := date, Text := text,
           Link := link }, limit, offset)

/-- `SongController.GetSongs`. -/
def GetSongs (fold : Char → Char) (timeParse : Str → Option time.Time) (db : Table)
    (query : url.Values) : Result (List models.Song) :=
  match getSongsArgs timeParse query with
  | .error status => { status := status, db := db, value := none }
  | .ok (filter, limit, offset) =>
    match repositories.GetSong fold db filter limit offset with
    | .error _ => { status := 500, db := db, value := none }
    | .ok songs => { status := 200, db := db, value := some songs }

/-- The `limit` of `GetSongsVerses`: the parsed value, or 10 when it does not parse or is
below 1. -/
def versesLimit (query : url.Values) : Int :=
  match strconv.Atoi (query.Get "limit".toList) with
  | none => 10
  | some limit => if limit < 1 then 10 else limit

/-- The `offset` of `GetSongsVerses`: the parsed value, or 0 when it does not parse or is
negative. -/
def versesOffset (query : url.Values) : Int :=
  match strconv.Atoi (query.Get "offset".toList) with
  | none => 0
  | some offset => if offset < 0 then 0 else offset

/-- `SongController.GetSongsVerses`; the response carries the verses and their count. -/
def GetSongsVerses (fold : Char → Char) (db : Table) (query : url.Values) :
    Result (List Str × Nat) :=
  let songTitle := query.Get "song_title".toList
  let limit := versesLimit query
  let offset := versesOffset query
  match repositories.GetSongVerses fold db songTitle limit offset with
  | .error _ => { status := 500, db := db, value := none }
  | .ok verses => { status := 200, db := db, value := some (verses, verses.length) }

end controllers

/-! ## Notions the statements below are phrased with -/

namespace sql

/-- A string without the `LIKE` metacharacters `%`, `_` and backslash. -/
def plainPattern (v : Str) : Prop := ∀ c ∈ v, c ≠ '\\' ∧ c ≠ '%' ∧ c ≠ '_'

/-- The stored value contains `v` as a substring, ignoring case (up to `fold`). -/
def containsIgnoreCase (fold : Char → Char) (stored v : Str) : Prop :=
  v.map fold <:+: stored.map fold

instance (fold : Char → Char) (stored v : Str) : Decidable (containsIgnoreCase fold stored v) :=
  inferInstanceAs (Decidable (v.map fold <:+: stored.map fold))

/-- The stored value equals `v`, ignoring case (up to `fold`). -/
def equalsIgnoreCase (fold : Char → Char) (stored v : Str) : Prop :=
  stored.map fold = v.map fold

/-- The five per-field conditions of a search, as the specification words them. -/
def specSelects (fold : Char → Char) (f : models.GetSong) (r : Row) : Prop :=
  (f.GroupName = [] ∨ containsIgnoreCase fold r.group_name f.GroupName) ∧
  (f.SongTitle = [] ∨ containsIgnoreCase fold r.song_title f.SongTitle) ∧
  (f.Text = [] ∨ containsIgnoreCase fold r.text f.Text) ∧
  (f.Link = [] ∨ containsIgnoreCase fold r.link f.Link) ∧
  r.release_date = f.ReleaseDate

instance (fold : Char → Char) (f : models.GetSong) (r : Row) : Decidable (specSelects fold f r) := by
  unfold specSelects
  infer_instance

end sql

/-! ## Sample data -/

namespace samples

open sql

/-- The all-empty filter, as built for a request without parameters. -/
def emptyFilter : models.GetSong :=
  { GroupName := [], SongTitle := [], ReleaseDate := time.zero, Text := [], Link := [] }

/-- A stored song titled `Imagine Dragons` with one verse. -/
def imagineDragons : Row :=
  { id := 1, group_name := "band".toList, song_title := "Imagine Dragons".toList,
    release_date := 0, text := "old".toList, link := [],
    verses := some (json.Marshal (some ["v1".toList])) }

/-- A stored song whose group name is the single letter `a`. -/
def groupA : Row :=
  { id := 1, group_name := "a".toList, song_title := "t".toList, release_date := 0,
    text := [], link := [], verses := some (json.Marshal none) }

/-- A stored song by `Queen`. -/
def queen : Row :=
  { id := 2, group_name := "Queen".toList, song_title := "Bohemian Rhapsody".toList,
    release_date := 0, text := "Is this the real life\n\nIs this just fantasy".toList, link := [],
    verses := some (json.Marshal
      (some ["Is this the real life".toList, "Is this just fantasy".toList])) }

/-- The body `{"song_title":"t","text":"","verses":["x"]}` of an add request. -/
def bodyWithVerses : controllers.SongBody :=
  { id := none, group_name := none, song_title := some "t".toList, release_date := none,
    text := some [], link := none, verses := some ["x".toList] }

/-- The body of the add request for `Bohemian Rhapsody`. -/
def bodyQueen : controllers.SongBody :=
  { id := none, group_name := some "Queen".toList,
    song_title := some "Bohemian Rhapsody".toList, release_date := none,
    text := some "Is this the real life\n\nIs this just fantasy".toList, link := none,
    verses := none }

/-- A `time.Parse` that accepts nothing; the sample requests carry no date. -/
def noDate : Str → Option time.Time := fun _ => none

end samples

/-! ## Facts about the verse codec -/

namespace json

theorem hexVal_hexDigit (n : Nat) (h : n < 16) : hexVal (hexDigit n) = some n := by
  interval_cases n <;> decide

theorem getu4_cons (a b c d : Char) (t : Str) :
    getu4 ('\\' :: 'u' :: a :: b :: c :: d :: t) =
      (match hexVal a, hexVal b, hexVal c, hexVal d with
        | some x, some y, some z, some w => some (((x * 16 + y) * 16 + z) * 16 + w)
        | _, _, _, _ => none) := by
  rfl

theorem unquoteFuel_plain (fuel : Nat) (c : Char) (cs : Str)
    (h1 : c ≠ '"') (h2 : c ≠ '\\') (h3 : ¬ c.toNat < 0x20) :
    unquoteFuel (fuel + 1) (c :: cs) = consRune c (unquoteFuel fuel cs) := by
  simp [unquoteFuel, h1, h2, h3]

theorem unquoteFuel_escape (fuel : Nat) (e ch : Char) (cs : Str)
    (h1 : e ≠ 'u') (h2 : escapeLit e = some ch) :
    unquoteFuel (fuel + 1) ('\\' :: e :: cs) = consRune ch (unquoteFuel fuel cs) := by
  simp [unquoteFuel, h1, h2]

theorem unquoteFuel_u (fuel : Nat) (a b c d : Char) (x y z w : Nat) (cs : Str)
    (ha : hexVal a = some x) (hb : hexVal b = some y) (hc : hexVal c = some z)
    (hd : hexVal d = some w)
    (hs : ¬ (0xd800 ≤ ((x * 16 + y) * 16 + z) * 16 + w ∧ ((x * 16 + y) * 16 + z) * 16 + w < 0xe000)) :
    unquoteFuel (fuel + 1) ('\\' :: 'u' :: a :: b :: c :: d :: cs) =
      consRune (Char.ofNat (((x * 16 + y) * 16 + z) * 16 + w)) (unquoteFuel fuel cs) := by
  have hg : getu4 ('\\' :: 'u' :: a :: b :: c :: d :: cs) = some (((x * 16 + y) * 16 + z) * 16 + w) := by
    rw [getu4_cons, ha, hb, hc, hd]
  rw [unquoteFuel]
  simp only [hg]
  simp [hs]

theorem unquoteFuel_encodeRune (fuel : Nat) (c : Char) (tail : Str) :
    unquoteFuel (fuel + 1) (encodeRune c ++ tail) = consRune c (unquoteFuel fuel tail) := by
  have hc : Char.ofNat c.toNat = c := Char.ofNat_toNat c
  unfold encodeRune
  simp only
  split_ifs with h1 h2 h3 h4 h5 h6 h7 h8 h9
  · -- html-safe ASCII
    apply unquoteFuel_plain
    · rintro rfl; simp [htmlSafeSet] at h2
    · rintro rfl; simp [htmlSafeSet] at h2
    · simp [htmlSafeSet] at h2; omega
  · rcases h3 with rfl | rfl
    · exact unquoteFuel_escape fuel _ _ tail (by decide) (by decide)
    · exact unquoteFuel_escape fuel _ _ tail (by decide) (by decide)
  · subst h4; exact unquoteFuel_escape fuel _ _ tail (by decide) (by decide)
  · subst h5; exact unquoteFuel_escape fuel _ _ tail (by decide) (by decide)
  · subst h6; exact unquoteFuel_escape fuel _ _ tail (by decide) (by decide)
  · subst h7; exact unquoteFuel_escape fuel _ _ tail (by decide) (by decide)
  · subst h8; exact unquoteFuel_escape fuel _ _ tail (by decide) (by decide)
  · have hd1 : c.toNat / 16 < 16 := by omega
    have hd2 : c.toNat % 16 < 16 := by omega
    have := unquoteFuel_u fuel '0' '0' (hexDigit (c.toNat / 16)) (hexDigit (c.toNat % 16))
      0 0 (c.toNat / 16) (c.toNat % 16) tail (by decide) (by decide)
      (hexVal_hexDigit _ hd1) (hexVal_hexDigit _ hd2) (by omega)
    have he : ((0 * 16 + 0) * 16 + c.toNat / 16) * 16 + c.toNat % 16 = c.toNat := by omega
    rw [he, hc] at this
    exact this
  · have hd2 : c.toNat % 16 < 16 := by omega
    have := unquoteFuel_u fuel '2' '0' '2' (hexDigit (c.toNat % 16))
      2 0 2 (c.toNat % 16) tail (by decide) (by decide) (by decide)
      (hexVal_hexDigit _ hd2) (by omega)
    have he : ((2 * 16 + 0) * 16 + 2) * 16 + c.toNat % 16 = c.toNat := by omega
    rw [he, hc] at this
    exact this
  · apply unquoteFuel_plain
    · rintro rfl; revert h1; decide
    · rintro rfl; revert h1; decide
    · omega

theorem length_encodeRune_pos (c : Char) : 0 < (encodeRune c).length := by
  unfold encodeRune
  simp only
  split_ifs <;> simp

theorem unquoteFuel_encodeBody (s rest : Str) :
    ∀ fuel, (encodeBody s ++ '"' :: rest).length < fuel →
      unquoteFuel fuel (encodeBody s ++ '"' :: rest) = some (s, rest) := by
  induction s with
  | nil =>
    intro fuel hf
    cases fuel with
    | zero => simp at hf
    | succ k => simp [encodeBody, unquoteFuel]
  | cons c s ih =>
    intro fuel hf
    cases fuel with
    | zero => simp at hf
    | succ k =>
      have hpos := length_encodeRune_pos c
      have hk : (encodeBody s ++ '"' :: rest).length < k := by
        simp only [encodeBody, List.append_assoc, List.length_append] at hf
        simp only [List.length_append]
        omega
      simp only [encodeBody, List.append_assoc]
      rw [unquoteFuel_encodeRune, ih k hk]
      rfl

theorem skipSpace_quote (s : Str) : skipSpace ('"' :: s) = '"' :: s := by
  simp [skipSpace, isSpace]

theorem skipSpace_comma (s : Str) : skipSpace (',' :: s) = ',' :: s := by
  simp [skipSpace, isSpace]

theorem skipSpace_rbracket (s : Str) : skipSpace (']' :: s) = ']' :: s := by
  simp [skipSpace, isSpace]

theorem arrayElems_appendString (fuel : Nat) (s rest : Str) :
    arrayElems (fuel + 1) (appendString s ++ rest) =
      (match skipSpace rest with
        | ',' :: rest1 => (arrayElems fuel rest1).map (fun p => (s :: p.1, p.2))
        | ']' :: rest1 => some ([s], rest1)
        | _ => none) := by
  have h : unquote (encodeBody s ++ '"' :: rest) = some (s, rest) :=
    unquoteFuel_encodeBody s rest _ (Nat.lt_succ_self _)
  simp only [arrayElems, appendString, List.cons_append, List.append_assoc, List.singleton_append,
    List.nil_append, skipSpace_quote, h]

theorem arrayElems_encodeElems (l : List Str) (hl : l ≠ []) (rest : Str) :
    ∀ fuel, l.length ≤ fuel →
      arrayElems fuel (encodeElems l ++ ']' :: rest) = some (l, rest) := by
  induction l with
  | nil => exact absurd rfl hl
  | cons s t ih =>
    intro fuel hf
    cases fuel with
    | zero => simp at hf
    | succ k =>
      cases t with
      | nil =>
        simp only [encodeElems]
        rw [arrayElems_appendString, skipSpace_rbracket]
        rfl
      | cons u t2 =>
        simp only [encodeElems, List.append_assoc, List.cons_append]
        rw [arrayElems_appendString, skipSpace_comma]
        simp only
        rw [ih (by simp) k (by simpa using hf)]
        rfl

theorem length_le_encodeElems (l : List Str) : l.length ≤ (encodeElems l).length := by
  induction l with
  | nil => simp
  | cons s t ih =>
    cases t with
    | nil => simp [encodeElems, appendString]
    | cons u t2 =>
      simp only [encodeElems, appendString, List.length_cons, List.length_append] at ih ⊢
      omega

/-- Decoding what `Marshal` produced gives back the slice that was encoded. -/
theorem Unmarshal_Marshal (v : Option (List Str)) : Unmarshal (Marshal v) none = .ok v := by
  cases v with
  | none => simp [Marshal, Unmarshal, skipSpace, isSpace]
  | some l =>
    cases l with
    | nil => simp [Marshal, Unmarshal, skipSpace, isSpace, encodeElems]
    | cons s t =>
      have hq : ∃ body, encodeElems (s :: t) ++ [']'] = '"' :: body := by
        cases t with
        | nil => exact ⟨_, rfl⟩
        | cons u t2 => exact ⟨_, rfl⟩
      obtain ⟨body, hb⟩ := hq
      have hlen : (s :: t).length ≤ (encodeElems (s :: t) ++ [']']).length := by
        have := length_le_encodeElems (s :: t)
        simp only [List.length_append]
        omega
      have harr := arrayElems_encodeElems (s :: t) (by simp) [] _ hlen
      have hsk : skipSpace ('[' :: (encodeElems (s :: t) ++ [']'])) =
          '[' :: (encodeElems (s :: t) ++ [']']) := by
        simp [skipSpace, isSpace]
      unfold Unmarshal Marshal
      simp only [hsk]
      rw [hb] at harr ⊢
      simp only [skipSpace_quote]
      rw [harr]
      simp [skipSpace]

end json

/-! ## Facts about `strings.Split` -/

namespace strings

theorem map_succ_eq_some {o : Option Nat} {i : Nat} (h : o.map (· + 1) = some i) :
    ∃ j, o = some j ∧ i = j + 1 := by
  cases o with
  | none => simp at h
  | some j => exact ⟨j, rfl, by simpa using h.symm⟩

theorem Index_none {sep : Str} : ∀ {s : Str}, Index s sep = none → ¬ sep <:+: s := by
  intro s
  induction s with
  | nil =>
    intro h hin
    have : sep = [] := List.eq_nil_of_infix_nil hin
    simp [Index, this] at h
  | cons c rest ih =>
    intro h hin
    unfold Index at h
    split_ifs at h with hp
    have hr : Index rest sep = none := by simpa using h
    rcases List.infix_cons_iff.mp hin with h1 | h1
    · exact hp (List.isPrefixOf_iff_prefix.mpr h1)
    · exact ih hr h1

theorem Index_some_bound {sep : Str} :
    ∀ {s : Str} {i : Nat}, Index s sep = some i → i + sep.length ≤ s.length := by
  intro s
  induction s with
  | nil =>
    intro i h
    unfold Index at h
    split_ifs at h with h0
    obtain rfl : 0 = i := Option.some.inj h
    simp [h0]
  | cons c rest ih =>
    intro i h
    unfold Index at h
    split_ifs at h with hp
    · obtain rfl : 0 = i := Option.some.inj h
      have := (List.isPrefixOf_iff_prefix.mp hp).length_le
      simpa using this
    · obtain ⟨j, hj, rfl⟩ := map_succ_eq_some h
      have := ih hj
      simp only [List.length_cons]
      omega

theorem Index_some_split {sep : Str} :
    ∀ {s : Str} {i : Nat}, Index s sep = some i →
      s.take i ++ sep ++ s.drop (i + sep.length) = s := by
  intro s
  induction s with
  | nil =>
    intro i h
    unfold Index at h
    split_ifs at h with h0
    simp [h0]
  | cons c rest ih =>
    intro i h
    unfold Index at h
    split_ifs at h with hp
    · obtain rfl : 0 = i := Option.some.inj h
      obtain ⟨t, ht⟩ := List.isPrefixOf_iff_prefix.mp hp
      rw [← ht]
      simp
    · obtain ⟨j, hj, rfl⟩ := map_succ_eq_some h
      have := ih hj
      have e : j + 1 + sep.length = (j + sep.length) + 1 := by omega
      rw [e]
      simp only [List.take_succ_cons, List.drop_succ_cons, List.cons_append]
      rw [this]

theorem Index_some_not_infix {sep : Str} (hsep : sep ≠ []) :
    ∀ {s : Str} {i : Nat}, Index s sep = some i → ¬ sep <:+: s.take i := by
  intro s
  induction s with
  | nil =>
    intro i _ hin
    simp only [List.take_nil] at hin
    exact hsep (List.eq_nil_of_infix_nil hin)
  | cons c rest ih =>
    intro i h hin
    unfold Index at h
    split_ifs at h with hp
    · obtain rfl : 0 = i := Option.some.inj h
      simp only [List.take_zero] at hin
      exact hsep (List.eq_nil_of_infix_nil hin)
    · obtain ⟨j, hj, rfl⟩ := map_succ_eq_some h
      simp only [List.take_succ_cons] at hin
      rcases List.infix_cons_iff.mp hin with h1 | h1
      · exact hp (List.isPrefixOf_iff_prefix.mpr
          (h1.trans ((List.prefix_cons_inj c).mpr (List.take_prefix j rest))))
      · exact ih hj h1

/-- No occurrence of `sep` starts before the position `Index` returns. -/
theorem Index_some_first {sep : Str} (hsep : sep ≠ []) :
    ∀ {s : Str} {i : Nat}, Index s sep = some i → ¬ sep <:+: s.take (i + sep.length - 1) := by
  have hpos : 0 < sep.length := List.length_pos.mpr hsep
  intro s
  induction s with
  | nil =>
    intro i _ hin
    simp only [List.take_nil] at hin
    exact hsep (List.eq_nil_of_infix_nil hin)
  | cons c rest ih =>
    intro i h hin
    unfold Index at h
    split_ifs at h with hp
    · obtain rfl : 0 = i := Option.some.inj h
      have h1 := hin.length_le
      simp only [List.length_take, List.length_cons] at h1
      omega
    · obtain ⟨j, hj, rfl⟩ := map_succ_eq_some h
      have e : j + 1 + sep.length - 1 = (j + sep.length - 1) + 1 := by omega
      rw [e, List.take_succ_cons] at hin
      rcases List.infix_cons_iff.mp hin with h1 | h1
      · exact hp (List.isPrefixOf_iff_prefix.mpr
          (h1.trans ((List.prefix_cons_inj c).mpr (List.take_prefix _ rest))))
      · exact ih hj h1

theorem countLoop_fuel {sep : Str} (hsep : sep ≠ []) :
    ∀ (k k1 : Nat) (s : Str), s.length < k → s.length < k1 →
      countLoop k s sep = countLoop k1 s sep := by
  intro k
  induction k with
  | zero => intro k1 s h; omega
  | succ k ih =>
    intro k1 s h h1
    cases k1 with
    | zero => omega
    | succ k1 =>
      simp only [countLoop]
      cases hi : Index s sep with
      | none => rfl
      | some i =>
        have hb := Index_some_bound hi
        have hpos : 0 < sep.length := List.length_pos.mpr hsep
        have hl : (s.drop (i + sep.length)).length < s.length := by
          simp only [List.length_drop]; omega
        simp only
        rw [ih k1 _ (by omega) (by omega)]

theorem Count_unfold {sep : Str} (hsep : sep ≠ []) (s : Str) :
    Count s sep =
      (match Index s sep with
        | none => 0
        | some i => Count (s.drop (i + sep.length)) sep + 1) := by
  unfold Count
  rw [countLoop]
  cases hi : Index s sep with
  | none => rfl
  | some i =>
    have hb := Index_some_bound hi
    have hpos : 0 < sep.length := List.length_pos.mpr hsep
    simp only
    rw [countLoop_fuel hsep (s.length) ((s.drop (i + sep.length)).length + 1) _
      (by simp only [List.length_drop]; omega) (by omega)]

theorem Count_le_length {sep : Str} (hsep : sep ≠ []) :
    ∀ (n : Nat) (s : Str), s.length ≤ n → Count s sep ≤ s.length := by
  intro n
  induction n with
  | zero =>
    intro s h
    rw [Count_unfold hsep]
    cases hi : Index s sep with
    | none => simp
    | some i =>
      have hb := Index_some_bound hi
      have hpos : 0 < sep.length := List.length_pos.mpr hsep
      omega
  | succ n ih =>
    intro s h
    rw [Count_unfold hsep]
    cases hi : Index s sep with
    | none => simp
    | some i =>
      have hb := Index_some_bound hi
      have hpos : 0 < sep.length := List.length_pos.mpr hsep
      have := ih (s.drop (i + sep.length)) (by simp only [List.length_drop]; omega)
      simp only [List.length_drop] at this
      show Count (s.drop (i + sep.length)) sep + 1 ≤ s.length
      omega

theorem Split_eq_loop {sep : Str} (hsep : sep ≠ []) (s : Str) :
    Split s sep = genSplitLoop (Count s sep) s sep := by
  unfold Split
  have := Count_le_length hsep s.length s le_rfl
  congr 1
  omega

theorem Join_cons {sep a : Str} {l : List Str} (hl : l ≠ []) :
    Join (a :: l) sep = a ++ sep ++ Join l sep := by
  cases l with
  | nil => exact absurd rfl hl
  | cons b rest => rfl

theorem genSplitLoop_spec {sep : Str} (hsep : sep ≠ []) :
    ∀ (k : Nat) (s : Str), Count s sep = k →
      Join (genSplitLoop k s sep) sep = s ∧
      (∀ v ∈ genSplitLoop k s sep, ¬ sep <:+: v) ∧
      (genSplitLoop k s sep).length = k + 1 := by
  intro k
  induction k with
  | zero =>
    intro s h
    rw [Count_unfold hsep] at h
    cases hi : Index s sep with
    | some i => rw [hi] at h; simp at h
    | none =>
      refine ⟨rfl, ?_, rfl⟩
      intro v hv
      simp only [genSplitLoop, List.mem_singleton] at hv
      subst hv
      exact Index_none hi
  | succ k ih =>
    intro s h
    rw [Count_unfold hsep] at h
    cases hi : Index s sep with
    | none => rw [hi] at h; simp at h
    | some i =>
      rw [hi] at h
      have hk : Count (s.drop (i + sep.length)) sep = k := by simpa using h
      obtain ⟨hj, hn, hlen⟩ := ih _ hk
      simp only [genSplitLoop, hi]
      have hne : genSplitLoop k (s.drop (i + sep.length)) sep ≠ [] := by
        intro h0
        rw [h0] at hlen
        simp at hlen
      refine ⟨?_, ?_, ?_⟩
      · rw [Join_cons hne, hj]
        exact Index_some_split hi
      · intro v hv
        rcases List.mem_cons.mp hv with rfl | hv
        · exact Index_some_not_infix hsep hi
        · exact hn v hv
      · simp [hlen]

/-- The recursion `Split` follows: cut at the first occurrence and go on after it. -/
theorem Split_step {sep : Str} (hsep : sep ≠ []) (s : Str) :
    Split s sep =
      (match Index s sep with
        | none => [s]
        | some i => s.take i :: Split (s.drop (i + sep.length)) sep) := by
  rw [Split_eq_loop hsep, Count_unfold hsep s]
  cases hi : Index s sep with
  | none => rfl
  | some i =>
    simp only [genSplitLoop, hi]
    rw [Split_eq_loop hsep]

end strings

/-! ## Facts about `LIKE` patterns -/

namespace sql

theorem likeTokens_cons_lit (c : Char) (p : Str) (h1 : c ≠ '\\') (h2 : c ≠ '%')
    (h3 : c ≠ '_') :
    likeTokens (c :: p) = (likeTokens p).map (fun ts => LikeTok.lit c :: ts) := by
  rw [likeTokens.eq_def]
  simp [h1, h2, h3]

theorem likeTokens_cons_percent (p : Str) :
    likeTokens ('%' :: p) = (likeTokens p).map (fun ts => LikeTok.anySeq :: ts) := by
  rw [likeTokens.eq_def]
  simp

theorem likeMatch_lit_cons (fold : Char → Char) (c d : Char) (ts : List LikeTok) (t : Str) :
    likeMatch fold (LikeTok.lit c :: ts) (d :: t) = (fold c == fold d && likeMatch fold ts t) :=
  rfl

theorem likeMatch_lit_nil (fold : Char → Char) (c : Char) (ts : List LikeTok) :
    likeMatch fold (LikeTok.lit c :: ts) [] = false :=
  rfl

theorem likeTokens_plain_append (v w : Str) (hv : plainPattern v) :
    likeTokens (v ++ w) = (likeTokens w).map (fun ts => v.map LikeTok.lit ++ ts) := by
  induction v with
  | nil => simp
  | cons c v ih =>
    have hc := hv c (List.mem_cons_self c v)
    have hv1 : plainPattern v := fun d hd => hv d (List.mem_cons_of_mem c hd)
    rw [List.cons_append, likeTokens_cons_lit c _ hc.1 hc.2.1 hc.2.2, ih hv1]
    cases likeTokens w <;> rfl

theorem likeTokens_plain (v : Str) (hv : plainPattern v) :
    likeTokens v = some (v.map LikeTok.lit) := by
  have := likeTokens_plain_append v [] hv
  simpa [likeTokens] using this

theorem likeTokens_contains (v : Str) (hv : plainPattern v) :
    likeTokens ('%' :: (v ++ ['%'])) =
      some (LikeTok.anySeq :: (v.map LikeTok.lit ++ [LikeTok.anySeq])) := by
  have h1 : likeTokens ['%'] = some [LikeTok.anySeq] := by decide
  rw [likeTokens_cons_percent, likeTokens_plain_append v _ hv, h1]
  rfl

theorem likeMatch_anySeq (fold : Char → Char) (ts : List LikeTok) (s : Str) :
    likeMatch fold (LikeTok.anySeq :: ts) s = true ↔
      ∃ t, t <:+ s ∧ likeMatch fold ts t = true := by
  simp only [likeMatch, List.any_eq_true, List.mem_tails]

theorem likeMatch_lits_starts (fold : Char → Char) (v : Str) :
    ∀ t : Str, likeMatch fold (v.map LikeTok.lit ++ [LikeTok.anySeq]) t = true ↔
      v.map fold <+: t.map fold := by
  induction v with
  | nil =>
    intro t
    simp only [List.map_nil, List.nil_append, List.nil_prefix, iff_true]
    rw [likeMatch_anySeq]
    exact ⟨[], List.nil_suffix, rfl⟩
  | cons c v ih =>
    intro t
    cases t with
    | nil => simp [likeMatch_lit_nil]
    | cons d t =>
      simp only [List.map_cons, List.cons_append, likeMatch_lit_cons, Bool.and_eq_true,
        beq_iff_eq, List.cons_prefix_cons, ih t]

theorem likeMatch_lits_exact (fold : Char → Char) (v : Str) :
    ∀ t : Str, likeMatch fold (v.map LikeTok.lit) t = true ↔ t.map fold = v.map fold := by
  induction v with
  | nil =>
    intro t
    cases t <;> simp [likeMatch]
  | cons c v ih =>
    intro t
    cases t with
    | nil => simp [likeMatch_lit_nil]
    | cons d t =>
      simp only [List.map_cons, likeMatch_lit_cons, Bool.and_eq_true, beq_iff_eq, ih t,
        List.cons.injEq]
      constructor
      · rintro ⟨h1, h2⟩; exact ⟨h1.symm, h2⟩
      · rintro ⟨h1, h2⟩; exact ⟨h1.symm, h2⟩

theorem infix_map_iff (fold : Char → Char) (w : Str) :
    ∀ s : Str, w <:+: s.map fold ↔ ∃ t, t <:+ s ∧ w <+: t.map fold := by
  intro s
  induction s with
  | nil =>
    simp only [List.map_nil, List.infix_nil, List.suffix_nil]
    constructor
    · rintro rfl; exact ⟨[], rfl, List.prefix_refl _⟩
    · rintro ⟨t, rfl, h⟩; simpa using h
  | cons d s ih =>
    simp only [List.map_cons, List.infix_cons_iff, ih, List.suffix_cons_iff]
    constructor
    · rintro (h | ⟨t, ht, h⟩)
      · exact ⟨d :: s, Or.inl rfl, by simpa using h⟩
      · exact ⟨t, Or.inr ht, h⟩
    · rintro ⟨t, (rfl | ht), h⟩
      · exact Or.inl (by simpa using h)
      · exact Or.inr ⟨t, ht, h⟩

theorem likeMatch_contains (fold : Char → Char) (v s : Str) :
    likeMatch fold (LikeTok.anySeq :: (v.map LikeTok.lit ++ [LikeTok.anySeq])) s = true ↔
      containsIgnoreCase fold s v := by
  unfold containsIgnoreCase
  rw [likeMatch_anySeq, infix_map_iff]
  simp only [likeMatch_lits_starts]

end sql

namespace repositories

open sql

theorem fieldCond_plain (fold : Char → Char) (v col : Str) (hv : plainPattern v) :
    ∃ b, fieldCond fold v col = .ok b ∧ (b = true ↔ (v = [] ∨ containsIgnoreCase fold col v)) := by
  unfold fieldCond
  by_cases h : v = []
  · exact ⟨true, by simp [h], by simp [h]⟩
  · refine ⟨likeMatch fold (LikeTok.anySeq :: (v.map LikeTok.lit ++ [LikeTok.anySeq])) col, ?_, ?_⟩
    · simp only [h, if_false, ILIKE, likeTokens_contains v hv]
    · rw [likeMatch_contains]
      simp [h]

end repositories

/-! ## Facts about the statements -/

namespace sql

theorem selectWhere_ok (cond : Row → Except Err Bool) (p : Row → Bool) :
    ∀ rows : List Row, (∀ r ∈ rows, cond r = .ok (p r)) →
      selectWhere cond rows = .ok (rows.filter p) := by
  intro rows
  induction rows with
  | nil => intro _; rfl
  | cons r rest ih =>
    intro h
    have hr := h r (List.mem_cons_self r rest)
    have hrest := ih (fun x hx => h x (List.mem_cons_of_mem r hx))
    simp only [selectWhere, hr, hrest, List.filter_cons]

theorem limitOffset_ok {α : Type} (rows : List α) (limit offset : Int) (hl : 0 ≤ limit)
    (ho : 0 ≤ offset) :
    limitOffset rows limit offset = .ok ((rows.drop offset.toNat).take limit.toNat) := by
  unfold limitOffset
  rw [if_neg]
  omega

end sql

namespace repositories

open sql

theorem updateRows_ok (fold : Char → Char) (newText songTitle : Str) (ts : List LikeTok)
    (hts : likeTokens songTitle = some ts) :
    ∀ rows : List Row, updateRows fold newText songTitle rows =
      .ok (rows.map (fun r =>
        if likeMatch fold ts r.song_title = true then { r with text := newText } else r)) := by
  intro rows
  induction rows with
  | nil => rfl
  | cons r rest ih =>
    simp only [updateRows, ILIKE, hts, ih, List.map_cons]

theorem scanSongs_cons (r : Row) (rest : List Row) : scanSongs (r :: rest) = .error .scan := rfl

/-- Whenever the statement of `GetSong` returns a row, the call returns the scan error. -/
theorem GetSong_of_rows (fold : Char → Char) (db : Table) (song : models.GetSong)
    (limit offset : Int) (r : Row) (rest : List Row)
    (h : getSongRows fold db song limit offset = .ok (r :: rest)) :
    GetSong fold db song limit offset = .error .scan := by
  unfold GetSong
  rw [h]
  rfl

end repositories

/-! ## The page the statement of `GetSong` selects -/

namespace sql

theorem mem_insertByDateDesc (r x : Row) :
    ∀ xs : List Row, x ∈ insertByDateDesc r xs ↔ x = r ∨ x ∈ xs := by
  intro xs
  induction xs with
  | nil => simp [insertByDateDesc]
  | cons y ys ih =>
    unfold insertByDateDesc
    split_ifs with h
    · simp only [List.mem_cons, ih]
      tauto
    · simp only [List.mem_cons]

theorem insertByDateDesc_sorted (r : Row) :
    ∀ xs : List Row, xs.Pairwise (fun a b => b.release_date ≤ a.release_date) →
      (insertByDateDesc r xs).Pairwise (fun a b => b.release_date ≤ a.release_date) := by
  intro xs
  induction xs with
  | nil => intro _; simp [insertByDateDesc]
  | cons y ys ih =>
    intro h
    have hy := List.pairwise_cons.mp h
    unfold insertByDateDesc
    split_ifs with hlt
    · refine List.pairwise_cons.mpr ⟨?_, ih hy.2⟩
      intro z hz
      rcases (mem_insertByDateDesc r z ys).mp hz with rfl | hz
      · exact le_of_lt hlt
      · exact hy.1 z hz
    · refine List.pairwise_cons.mpr ⟨?_, h⟩
      intro z hz
      have hry : y.release_date ≤ r.release_date := not_lt.mp hlt
      rcases List.mem_cons.mp hz with rfl | hz
      · exact hry
      · exact le_trans (hy.1 z hz) hry

theorem orderByReleaseDateDesc_sorted :
    ∀ rows : List Row,
      (orderByReleaseDateDesc rows).Pairwise (fun a b => b.release_date ≤ a.release_date) := by
  intro rows
  induction rows with
  | nil => exact List.Pairwise.nil
  | cons r rest ih => exact insertByDateDesc_sorted r _ ih

theorem length_insertByDateDesc (r : Row) :
    ∀ xs : List Row, (insertByDateDesc r xs).length = xs.length + 1 := by
  intro xs
  induction xs with
  | nil => rfl
  | cons y ys ih =>
    unfold insertByDateDesc
    split_ifs <;> simp [ih]

theorem length_orderByReleaseDateDesc :
    ∀ rows : List Row, (orderByReleaseDateDesc rows).length = rows.length := by
  intro rows
  induction rows with
  | nil => rfl
  | cons r rest ih => simp [orderByReleaseDateDesc, length_insertByDateDesc, ih]

end sql

namespace repositories

open sql

/-- The statement of `GetSong`, for a filter without `LIKE` metacharacters and non-negative
bounds, returns the slice `[offset, offset+limit)` of the selected rows in descending date
order. -/
theorem getSongRows_page (fold : Char → Char) (db : Table) (f : models.GetSong)
    (limit offset : Int) (hg : plainPattern f.GroupName) (ht : plainPattern f.SongTitle)
    (hx : plainPattern f.Text) (hl : plainPattern f.Link) (h0 : 0 ≤ limit) (h1 : 0 ≤ offset) :
    ∃ page, getSongRows fold db f limit offset = .ok page ∧
      page = ((orderByReleaseDateDesc
        (db.filter (fun r => decide (specSelects fold f r)))).drop offset.toNat).take limit.toNat ∧
      page.Pairwise (fun a b => b.release_date ≤ a.release_date) ∧
      page.length = min limit.toNat
        ((db.filter (fun r => decide (specSelects fold f r))).length - offset.toNat) := by
  have hsel : selectWhere (whereGetSong fold f) db =
      .ok (db.filter (fun r => decide (specSelects fold f r))) := by
    apply selectWhere_ok
    intro r _
    obtain ⟨bg, hbg, ebg⟩ := fieldCond_plain fold f.GroupName r.group_name hg
    obtain ⟨bt, hbt, ebt⟩ := fieldCond_plain fold f.SongTitle r.song_title ht
    obtain ⟨bx, hbx, ebx⟩ := fieldCond_plain fold f.Text r.text hx
    obtain ⟨bl, hbl, ebl⟩ := fieldCond_plain fold f.Link r.link hl
    simp only [whereGetSong, hbg, hbt, hbx, hbl]
    congr 1
    rw [Bool.eq_iff_iff]
    simp only [Bool.and_eq_true, decide_eq_true_eq, ebg, ebt, ebx, ebl, specSelects]
    constructor
    · rintro ⟨⟨⟨⟨a, b⟩, c⟩, d⟩, e⟩
      exact ⟨a, b, d, e, c⟩
    · rintro ⟨a, b, d, e, c⟩
      exact ⟨⟨⟨⟨a, b⟩, c⟩, d⟩, e⟩
  refine ⟨_, ?_, rfl, ?_, ?_⟩
  · unfold getSongRows
    simp only [hsel]
    exact limitOffset_ok _ _ _ h0 h1
  · exact ((orderByReleaseDateDesc_sorted _).sublist (List.drop_sublist _ _)).sublist
      (List.take_sublist _ _)
  · simp [List.length_take, List.length_drop, length_orderByReleaseDateDesc]

end repositories

/-! ## Facts about the handlers -/


namespace controllers

open sql repositories

/-- What `AddSongs` does for a request without `release_date` whose body decodes. -/
theorem AddSongs_no_date (timeParse : Str → Option time.Time) (db : Table)
    (query : url.Values) (b : SongBody) (hq : query.Get "release_date".toList = []) :
    (AddSongs timeParse db query (some b)).status = 201 ∧
    (AddSongs timeParse db query (some b)).value = some (splitVerses (decodeInto zeroSong b)) ∧
    (AddSongs timeParse db query (some b)).db =
      db ++ [{ id := nextId db,
               group_name := (splitVerses (decodeInto zeroSong b)).GroupName,
               song_title := (splitVerses (decodeInto zeroSong b)).SongTitle,
               release_date := (splitVerses (decodeInto zeroSong b)).ReleaseDate,
               text := (splitVerses (decodeInto zeroSong b)).Text,
               link := (splitVerses (decodeInto zeroSong b)).Link,
               verses := some (json.Marshal (splitVerses (decodeInto zeroSong b)).Verses) }] := by
  unfold AddSongs
  simp only [hq, ne_eq, not_true_eq_false, if_false, repositories.AddSong, and_self]

/-- A request without `release_date` whose body has a non-empty text is persisted with the
fields of the body and the verses split from the text. -/
theorem AddSongs_nonempty_text (timeParse : Str → Option time.Time) (db : Table)
    (query : url.Values) (b : SongBody) (t : Str)
    (hq : query.Get "release_date".toList = []) (ht : b.text = some t) (hne : t ≠ []) :
    ∃ r, (AddSongs timeParse db query (some b)).status = 201 ∧
      (AddSongs timeParse db query (some b)).db = db ++ [r] ∧
      r.group_name = b.group_name.getD [] ∧ r.song_title = b.song_title.getD [] ∧
      r.text = t ∧ r.link = b.link.getD [] ∧
      r.verses = some (json.Marshal (some (Split t))) := by
  have hS : Split t = strings.Split t verseSep := by
    simp [Split, splitVerses, zeroSong, hne]
  obtain ⟨h1, _, h3⟩ := AddSongs_no_date timeParse db query b hq
  have hT : (decodeInto zeroSong b).Text = t := by simp [decodeInto, ht]
  refine ⟨_, h1, h3, ?_⟩
  simp [splitVerses, hT, hne, hS]
  simp [decodeInto, zeroSong]

/-- A request without `release_date` whose body has an empty text is persisted with the
verses of the body. -/
theorem AddSongs_empty_text (timeParse : Str → Option time.Time) (db : Table)
    (query : url.Values) (b : SongBody)
    (hq : query.Get "release_date".toList = []) (ht : b.text.getD [] = []) :
    ∃ r, (AddSongs timeParse db query (some b)).db = db ++ [r] ∧
      r.verses = some (json.Marshal b.verses) := by
  obtain ⟨_, _, h3⟩ := AddSongs_no_date timeParse db query b hq
  have hT : (decodeInto zeroSong b).Text = [] := ht
  refine ⟨_, h3, ?_⟩
  have hsv : splitVerses (decodeInto zeroSong b) = decodeInto zeroSong b := by
    unfold splitVerses
    rw [if_neg (by simp [hT])]
  rw [hsv]
  cases hv : b.verses <;> simp [decodeInto, zeroSong, hv]

/-- Whatever the request, `GetSongs` calls the repository with `limit = 10, offset = 0`. -/
theorem getSongsArgs_paging (timeParse : Str → Option time.Time) (query : url.Values)
    (args : models.GetSong × Int × Int) (h : getSongsArgs timeParse query = .ok args) :
    args.2 = (10, 0) := by
  unfold getSongsArgs at h
  simp only at h
  split at h
  · exact absurd h (by simp)
  · obtain rfl := Except.ok.inj h
    rfl

/-- A verses request that leaves `offset` at its default is answered with no verse,
whatever the table holds. -/
theorem GetSongsVerses_default_offset (fold : Char → Char) (db : Table) (query : url.Values)
    (ts : List LikeTok) (ho : versesOffset query = 0)
    (hp : likeTokens (query.Get "song_title".toList) = some ts) :
    (GetSongsVerses fold db query).value = some ([], 0) := by
  have hsel : selectWhere (fun r => ILIKE fold r.song_title (query.Get "song_title".toList)) db =
      .ok (db.filter (fun r => likeMatch fold ts r.song_title)) :=
    selectWhere_ok _ _ db (fun r _ => by simp only [ILIKE, hp])
  have hl : 0 ≤ versesLimit query := by
    unfold versesLimit
    split
    · decide
    · split_ifs <;> omega
  unfold GetSongsVerses
  simp only [ho, GetSongVerses, hsel, limitOffset_ok _ _ _ (le_refl (0 : Int)) hl]
  rfl

end controllers

/-! ## The properties of the specification -/

open sql repositories controllers samples

/-- C1 (as stated, refuted): the filter `group_name = "_"` selects a song whose group name
is `a`, although `a` does not contain `_`: the filter value is read as a `LIKE` pattern. -/
theorem C1_counterexample :
    whereGetSong Char.toLower { emptyFilter with GroupName := ['_'] } groupA = .ok true ∧
    ¬ specSelects Char.toLower { emptyFilter with GroupName := ['_'] } groupA := by
  decide

/-- C1 (amended): for a filter whose four string values contain none of `%`, `_` and
backslash, the `WHERE` clause of `GetSong` evaluates without error and selects a row if and
only if the five conditions hold together: each string filter value is empty or contained
in the stored value ignoring case, and the stored date equals the filter date.  The filter
that `GetSongs` builds for a request without `release_date` carries the zero date. -/
theorem C1_where_selects (fold : Char → Char) (f : models.GetSong) (r : Row)
    (hg : plainPattern f.GroupName) (ht : plainPattern f.SongTitle)
    (hx : plainPattern f.Text) (hl : plainPattern f.Link) :
    (∃ b, whereGetSong fold f r = .ok b ∧ (b = true ↔ specSelects fold f r)) ∧
    (∀ (timeParse : Str → Option time.Time) (query : url.Values),
      query.Get "release_date".toList = [] →
        ∃ args, getSongsArgs timeParse query = .ok args ∧ args.1.ReleaseDate = time.zero) := by
  constructor
  · obtain ⟨bg, hbg, ebg⟩ := fieldCond_plain fold f.GroupName r.group_name hg
    obtain ⟨bt, hbt, ebt⟩ := fieldCond_plain fold f.SongTitle r.song_title ht
    obtain ⟨bx, hbx, ebx⟩ := fieldCond_plain fold f.Text r.text hx
    obtain ⟨bl, hbl, ebl⟩ := fieldCond_plain fold f.Link r.link hl
    refine ⟨bg && bt && decide (r.release_date = f.ReleaseDate) && bx && bl, ?_, ?_⟩
    · simp only [whereGetSong, hbg, hbt, hbx, hbl]
    · simp only [Bool.and_eq_true, decide_eq_true_eq, ebg, ebt, ebx, ebl, specSelects]
      constructor
      · rintro ⟨⟨⟨⟨a, b⟩, c⟩, d⟩, e⟩
        exact ⟨a, b, d, e, c⟩
      · rintro ⟨a, b, d, e, c⟩
        exact ⟨⟨⟨⟨a, b⟩, c⟩, d⟩, e⟩
  · intro timeParse query hq
    refine ⟨({ GroupName := query.Get "group_name".toList,
               SongTitle := query.Get "song_title".toList, ReleaseDate := time.zero,
               Text := query.Get "text".toList, Link := query.Get "link".toList }, 10, 0),
      ?_, rfl⟩
    unfold getSongsArgs
    simp only [hq, ne_eq, not_true_eq_false, if_false]

/-- C1, an instance: the filter `group_name = "que"` on the stored song by `Queen`. -/
theorem C1_where_selects_witness :
    (∃ b, whereGetSong Char.toLower { emptyFilter with GroupName := "que".toList } queen = .ok b ∧
      (b = true ↔ specSelects Char.toLower { emptyFilter with GroupName := "que".toList } queen)) ∧
    ∃ args, getSongsArgs noDate [] = .ok args ∧ args.1.ReleaseDate = time.zero :=
  have h := C1_where_selects Char.toLower { emptyFilter with GroupName := "que".toList } queen
    (by unfold plainPattern; decide) (by unfold plainPattern; decide)
    (by unfold plainPattern; decide) (by unfold plainPattern; decide)
  ⟨h.1, h.2 noDate [] (by decide)⟩

/-- C2 (evaluation at the failing input): with one stored song of the zero date and the
all-empty filter, the statement of `GetSong` returns that row for `limit = 10, offset = 0`,
and `GetSong` returns the scan error instead of the one-song page; the handler answers
with status 500. -/
theorem C2_GetSong_scan_error :
    getSongRows Char.toLower [queen] emptyFilter 10 0 = .ok [queen] ∧
    GetSong Char.toLower [queen] emptyFilter 10 0 = .error .scan ∧
    (GetSongs Char.toLower noDate [queen] []).status = 500 := by
  decide

/-- C3: the verse split of `AddSongs`.  `Split ""` is empty; for a non-empty text the
verses joined with the delimiter give the text back, no verse contains the delimiter, and
there is one verse more than `strings.Count` finds delimiters; a text without delimiter is
its only verse, and otherwise the first verse ends at the first delimiter (none starts
before it) and the rest of the text is split in the same way; the two sample texts split as
stated. -/
theorem C3_Split :
    Split [] = [] ∧
    (∀ t : Str, t ≠ [] →
      strings.Join (Split t) verseSep = t ∧
      (∀ v ∈ Split t, ¬ verseSep <:+: v) ∧
      (Split t).length = strings.Count t verseSep + 1 ∧
      (strings.Index t verseSep = none → Split t = [t]) ∧
      (∀ i, strings.Index t verseSep = some i →
        t.take i ++ verseSep ++ t.drop (i + 2) = t ∧
        ¬ verseSep <:+: t.take (i + 1) ∧
        Split t = t.take i :: strings.Split (t.drop (i + 2)) verseSep)) ∧
    Split "a\n\nb".toList = ["a".toList, "b".toList] ∧
    Split "a\n\n\n\nb".toList = ["a".toList, [], "b".toList] := by
  have hsep : verseSep ≠ [] := by decide
  refine ⟨by decide, ?_, by decide, by decide⟩
  intro t ht
  have hS : Split t = strings.Split t verseSep := by
    simp [Split, splitVerses, zeroSong, ht]
  obtain ⟨h1, h2, h3⟩ := strings.genSplitLoop_spec hsep _ t rfl
  have hstep := strings.Split_step hsep t
  rw [hS, strings.Split_eq_loop hsep]
  refine ⟨h1, h2, h3, ?_, ?_⟩
  · intro hi
    rw [← strings.Split_eq_loop hsep, hstep, hi]
  · intro i hi
    refine ⟨strings.Index_some_split hi, strings.Index_some_first hsep hi, ?_⟩
    rw [← strings.Split_eq_loop hsep, hstep, hi]
    rfl

/-- C3, an instance: the text `a\n\nb`. -/
theorem C3_Split_witness :
    "a\n\nb".toList ≠ [] ∧ strings.Join (Split "a\n\nb".toList) verseSep = "a\n\nb".toList :=
  ⟨by decide, (C3_Split.2.1 "a\n\nb".toList (by decide)).1⟩

/-- C4: decoding what `AddSong` encodes gives the verses back.  For every slice `v`,
`nil` and empty included, `Unmarshal (Marshal v)` succeeds with `v`; the row `AddSong`
inserts stores `Marshal song.Verses`, and the loop of `GetSongVerses` on that row yields
the verses of the song; in particular this holds for `v = Split t`. -/
theorem C4_verses_roundtrip :
    (∀ v : Option (List Str), json.Unmarshal (json.Marshal v) none = .ok v) ∧
    (∀ (db : Table) (song : models.Song),
      ∃ r, AddSong db song = .ok (db ++ [r]) ∧ r.verses = some (json.Marshal song.Verses) ∧
        collectVerses [r] = .ok (song.Verses.getD [])) ∧
    (∀ t : Str, json.Unmarshal (json.Marshal (some (Split t))) none = .ok (some (Split t))) := by
  refine ⟨json.Unmarshal_Marshal, ?_, fun t => json.Unmarshal_Marshal _⟩
  intro db song
  refine ⟨_, rfl, rfl, ?_⟩
  simp [collectVerses, scanNullString, json.Unmarshal_Marshal]

/-- C5 (evaluation at the failing input): an add request whose body has an empty `text`
and a `verses` key is persisted with the verses of the body, not with the empty sequence;
the add request for `Bohemian Rhapsody` is persisted with its two verses. -/
theorem C5_AddSongs_keeps_body_verses :
    (AddSongs noDate [] [] (some bodyWithVerses)).status = 201 ∧
    (AddSongs noDate [] [] (some bodyWithVerses)).value.map (fun s => (s.Text, s.Verses)) =
      some ([], some ["x".toList]) ∧
    (AddSongs noDate [] [] (some bodyWithVerses)).db.map (fun r => r.verses) =
      [some "[\"x\"]".toList] ∧
    (AddSongs noDate [] [] (some bodyQueen)).value.map (fun s => s.Verses) =
      some (some ["Is this the real life".toList, "Is this just fantasy".toList]) := by
  decide

/-- C7 (as stated, refuted): `UpdateSongText("Imagine", "new lyrics")` leaves the song
titled `Imagine Dragons` as it was, although its title contains `Imagine`. -/
theorem C7_counterexample :
    containsIgnoreCase Char.toLower imagineDragons.song_title "Imagine".toList ∧
    UpdateSongText Char.toLower [imagineDragons] "Imagine".toList "new lyrics".toList =
      .ok [imagineDragons] ∧
    imagineDragons.text ≠ "new lyrics".toList := by
  decide

/-- C7 (amended): for a well-formed pattern `p`, `UpdateSongText(p, n)` succeeds, also
when no song matches, and the table afterwards is the table before with the text replaced
by `n` in exactly the rows whose whole title matches `p` as a case-insensitive `LIKE`
pattern; every other row and every other column, `verses` included, is unchanged.  For `p`
without `%`, `_` and backslash a title matches exactly when it equals `p` ignoring case. -/
theorem C7_UpdateSongText (fold : Char → Char) (db : Table) (p n : Str) (ts : List LikeTok)
    (hp : likeTokens p = some ts) :
    UpdateSongText fold db p n =
      .ok (db.map (fun r =>
        if likeMatch fold ts r.song_title = true then { r with text := n } else r)) ∧
    (plainPattern p → ∀ title : Str,
      likeMatch fold ts title = true ↔ equalsIgnoreCase fold title p) := by
  constructor
  · exact updateRows_ok fold n p ts hp db
  · intro hplain title
    have : ts = p.map LikeTok.lit := by
      have := likeTokens_plain p hplain
      rw [hp] at this
      exact Option.some.inj this
    subst this
    exact likeMatch_lits_exact fold p title

/-- C7, an instance: `UpdateSongText("imagine dragons", "new lyrics")` on a table with
`Imagine Dragons` and the song by `Queen` replaces the text of the first only. -/
theorem C7_UpdateSongText_witness :
    UpdateSongText Char.toLower [imagineDragons, queen] "imagine dragons".toList
        "new lyrics".toList =
      .ok [{ imagineDragons with text := "new lyrics".toList }, queen] := by
  have h := (C7_UpdateSongText Char.toLower [imagineDragons, queen] "imagine dragons".toList
    "new lyrics".toList ("imagine dragons".toList.map LikeTok.lit) (by decide)).1
  rw [h]
  decide

/-- C8: `DeleteSong(g, t)` succeeds and leaves the rows whose `(group_name, song_title)`
is not exactly `(g, t)`, unchanged and in their order; when no row has that pair the table
is unchanged, and deleting again changes nothing more. -/
theorem C8_DeleteSong (db : Table) (g t : Str) :
    ∃ db1, DeleteSong db g t = .ok db1 ∧
      db1 = db.filter (fun r => decide (¬ (r.group_name = g ∧ r.song_title = t))) ∧
      db1.Sublist db ∧
      (∀ r, r ∈ db1 ↔ r ∈ db ∧ ¬ (r.group_name = g ∧ r.song_title = t)) ∧
      ((∀ r ∈ db, ¬ (r.group_name = g ∧ r.song_title = t)) → db1 = db) ∧
      DeleteSong db1 g t = .ok db1 := by
  have hf : (fun r : Row => !(decide (r.group_name = g) && decide (r.song_title = t))) =
      (fun r : Row => decide (¬ (r.group_name = g ∧ r.song_title = t))) := by
    funext r
    by_cases h1 : r.group_name = g <;> by_cases h2 : r.song_title = t <;> simp [h1, h2]
  refine ⟨db.filter (fun r => decide (¬ (r.group_name = g ∧ r.song_title = t))), ?_, rfl,
    List.filter_sublist _, ?_, ?_, ?_⟩
  · simp only [DeleteSong, hf]
  · intro r
    rw [List.mem_filter, decide_eq_true_iff]
  · intro h
    apply List.filter_eq_self.mpr
    intro r hr
    exact decide_eq_true (h r hr)
  · simp only [DeleteSong, hf, List.filter_filter, Bool.and_self]

/-- C8, an instance: deleting a pair that no stored song has leaves the table as it is. -/
theorem C8_DeleteSong_witness :
    DeleteSong [queen, imagineDragons] "nobody".toList "nothing".toList =
      .ok [queen, imagineDragons] := by
  obtain ⟨db1, h1, _, _, _, h5, _⟩ :=
    C8_DeleteSong [queen, imagineDragons] "nobody".toList "nothing".toList
  rw [h1, h5 (by decide)]

/-- C9 (evaluation at the failing input): for the request `limit=5&offset=10`, `GetSongs`
calls the repository with `limit = 10` and `offset = 0`, the same call as for a request
without parameters. -/
theorem C9_GetSongs_fixed_page :
    getSongsArgs noDate [("limit".toList, "5".toList), ("offset".toList, "10".toList)] =
      .ok (emptyFilter, 10, 0) ∧
    getSongsArgs noDate [("limit".toList, "5".toList), ("offset".toList, "10".toList)] =
      getSongsArgs noDate [] := by
  decide

/-- C10 (evaluation at the failing input): for a request with only `song_title=Bohemian
Rhapsody`, the handler derives `limit = 10` and `offset = 0`, yet it answers with no verse,
although the stored song has two: the repository receives the two numbers in the other
order, and with them in the order of its signature it returns both verses. -/
theorem C10_GetSongsVerses_swapped :
    versesLimit [("song_title".toList, "Bohemian Rhapsody".toList)] = 10 ∧
    versesOffset [("song_title".toList, "Bohemian Rhapsody".toList)] = 0 ∧
    (GetSongsVerses Char.toLower [queen]
        [("song_title".toList, "Bohemian Rhapsody".toList)]).value = some ([], 0) ∧
    GetSongVerses Char.toLower [queen] "Bohemian Rhapsody".toList 0 10 =
      .ok ["Is this the real life".toList, "Is this just fantasy".toList] := by
  decide
